import Mathlib

/-!
Shallow embedding of the pip-tools core under verification:
`piptools/_compat/pip_compat.py` (requirement ingestion, `parse_requirements`)
and `piptools/writer.py` (`OutputWriter`, `_iter_lines`, `_format_requirement`,
`_comes_from_as_string`).

Helpers imported from `piptools/utils.py` (not part of the sources given:
`abs_ireq`, `fragment_string`, `install_req_from_link_and_ireq`,
`key_from_ireq`, `comment`, `dedup`, `format_requirement`, `UNSAFE_PACKAGES`)
are modelled from the specification; such definitions carry a doc comment
starting with "Modelled from the spec:".  External collaborators (the pip
requirement constructor, `os.path.relpath`, the platform test) are passed in
as explicit function or Boolean parameters.

Strings are treated as the sequences of characters the Python code
manipulates; the requirement texts handled here are single physical lines, so
the embedding of the regular expressions treats end-of-string as the `$`
anchor and ignores the ability of `$` to match before a trailing newline.
-/

/-! ## Data model -/

/-- A raw parsed-line record, mirroring pip's `ParsedRequirement`:
requirement text, editable flag, provenance, constraint flag, per-line
options and source-line descriptor.  The last two fields are opaque payloads
that the ingester only copies. -/
structure ParsedReq where
  requirement : String
  is_editable : Bool
  comes_from : String
  constraint : Bool
  options : List String
  line_source : Option String
deriving DecidableEq

/-- A resolved URL/path reference, mirroring `pip._internal.models.link.Link`:
the URL string plus the extra constructor attributes that the fragment
recovery step copies over (`comes_from`, `requires_python`, `yanked_reason`,
`cache_link_parsing`).  The `scheme` and `fragment` of a link are derived
from the URL string, as in pip. -/
structure PipLink where
  url : String
  comes_from : String
  requires_python : Option String
  yanked_reason : Option String
  cache_link_parsing : Bool
deriving DecidableEq

/-- The origin trail of a requirement (`InstallRequirement.comes_from`):
either absent, a provenance string, or a back-reference to the requirement
record that pulled this one in (of which only the canonical identity is
consumed, via `key_from_ireq`). -/
inductive ComesFrom where
  | absent : ComesFrom
  | str : String → ComesFrom
  | parent : String → ComesFrom
deriving DecidableEq

/-- A requirement record (`InstallRequirement`) as consumed by the two
components: name, canonical identity, canonical requirement text, editable
flag, origin, optional fan-in origins (`_source_ireqs`, of which only each
contributor's origin is consumed), optional link, and the `_was_relative`
flag that the ingester bolts on. -/
structure Ireq where
  name : Option String
  key : String
  reqText : String
  editable : Bool
  comes_from : ComesFrom
  sourceComesFrom : Option (List ComesFrom)
  link : Option PipLink
  wasRelative : Bool
deriving DecidableEq

/-- Modelled from the spec: the "key from record" identity extractor
(`key_from_ireq`), a pure function returning the canonical package name or
stable key; the canonical identity is carried on the record. -/
def keyFromIreq (i : Ireq) : String := i.key

/-! ## Character-level embeddings of the regular expressions and URL parsing -/

/-- The tail of a match of `#[^#]+=.+$` after its opening `#`: at least one
non-`#` character, then `=`, then at least one character running to the end
of the string. -/
def fragTailAux : List Char → Bool
  | [] => false
  | c :: rest =>
    if c = '#' then false
    else if c = '=' && !rest.isEmpty then true
    else fragTailAux rest

/-- Whether a character list matches `[^#]+=.+$` (the part of the fragment
pattern after the opening `#`): the first character starts the mandatory
non-`#` run, and a separating `=` with a nonempty remainder must follow. -/
def fragTail : List Char → Bool
  | [] => false
  | c :: rest => decide (c ≠ '#') && fragTailAux rest

/-- `re.sub(r"#[^#]+=.+$", "", ·)` on the character list: truncate at the
leftmost `#` whose tail matches `[^#]+=.+$`. -/
def stripFragChars : List Char → List Char
  | [] => []
  | c :: rest => if c = '#' && fragTail rest then [] else c :: stripFragChars rest

/-- `re.sub(r"#[^#]+=.+$", "", s)`: the fragment-stripped copy of a raw
requirement string used for the retry construction. -/
def stripFragment (s : String) : String := String.mk (stripFragChars s.data)

/-- The part of a character list strictly before its first `#`. -/
def stemChars : List Char → List Char
  | [] => []
  | c :: rest => if c = '#' then [] else c :: stemChars rest

/-- The suffix of a character list from its first `#` (inclusive); empty when
there is no `#`. -/
def hashSuffixChars : List Char → List Char
  | [] => []
  | c :: rest => if c = '#' then c :: rest else hashSuffixChars rest

/-- `urllib` fragment of a URL string: everything after the first `#`
(empty when there is no `#`), as in `Link(url)._parsed_url.fragment`. -/
def urlFragment (s : String) : String := String.mk ((hashSuffixChars s.data).drop 1)

/-- Whether a character may appear in a URL scheme (letter, digit, `+`, `-`
or `.`), per `urllib`. -/
def isSchemeChar (c : Char) : Bool := c.isAlpha || c.isDigit || c = '+' || c = '-' || c = '.'

/-- Scan for the first `:`; return the length of the candidate scheme prefix
including the colon, provided every character before the colon is a valid
scheme character. -/
def schemeHeadLenAux : List Char → Nat → Option Nat
  | [], _ => none
  | c :: rest, n => if c = ':' then some (n + 1) else if isSchemeChar c then schemeHeadLenAux rest (n + 1) else none

/-- Length of the `scheme:` prefix of a URL character list (0 when the URL
has no valid scheme): the first character must be a letter and every further
character up to the first `:` a valid scheme character. -/
def schemeHeadLen (cs : List Char) : Nat :=
  match cs with
  | [] => 0
  | c :: rest => if c.isAlpha then (schemeHeadLenAux (c :: rest) 0).getD 0 else 0

/-- `Link.scheme`: the scheme of a URL string, without the colon; empty when
the URL has no valid scheme. -/
def schemeOf (s : String) : String :=
  if schemeHeadLen s.data = 0 then ""
  else String.mk (s.data.take (schemeHeadLen s.data - 1))

/-- The path-and-authority part of a URL: the stem before any fragment, with
the `scheme:` prefix removed. -/
def urlPathPart (s : String) : List Char :=
  (stemChars s.data).drop (schemeHeadLen (stemChars s.data))

/-- Whether a character list begins with the root path separator `/`. -/
def startsSlash : List Char → Bool
  | '/' :: _ => true
  | _ => false

/-- Character-level `str.startswith` (the core `String` version is avoided
throughout because its byte-position arithmetic blocks kernel reduction). -/
def strStartsWith (s pat : String) : Bool := pat.data.isPrefixOf s.data

/-- Character-level `str.endswith`. -/
def strEndsWith (s pat : String) : Bool := pat.data.isSuffixOf s.data

/-- Character-level drop of the first `n` characters of a string. -/
def strDrop (s : String) (n : Nat) : String := String.mk (s.data.drop n)

/-- Character-level drop of the last `n` characters of a string. -/
def strDropRight (s : String) (n : Nat) : String := String.mk (s.data.take (s.data.length - n))

/-- `file_url_schemes_re.sub("", s)`: strip one leading
`(git+|hg+|svn+|bzr+)?file:` prefix from the raw requirement text. -/
def stripVcsFileScheme (s : String) : String :=
  if strStartsWith s "git+file:" then strDrop s 9
  else if strStartsWith s "hg+file:" then strDrop s 8
  else if strStartsWith s "svn+file:" then strDrop s 9
  else if strStartsWith s "bzr+file:" then strDrop s 9
  else if strStartsWith s "file:" then strDrop s 5
  else s

/-- `re.match(r"[a-zA-Z]:", s)`: a Windows drive-letter-rooted bare path. -/
def isDriveRooted (s : String) : Bool :=
  match s.data with
  | c :: d :: _ => (c.isUpper || c.isLower) && d = ':'
  | _ => false

/-! ## Ingester (`parse_requirements` in `pip_compat.py`) -/

/-- Modelled from the spec: `fragment_string` returns the fragment carried by
the record's link, empty when the record has no link or the link has no
fragment. -/
def fragmentString (i : Ireq) : String :=
  match i.link with
  | some l => urlFragment l.url
  | none => ""

/-- Modelled from the spec: `install_req_from_link_and_ireq` rebuilds the
requirement record around the given link, every other attribute unchanged. -/
def install_req_from_link_and_ireq (l : PipLink) (i : Ireq) : Ireq :=
  { i with link := some l }

/-- Modelled from the spec: the absolutization step of `abs_ireq` on a URL —
recompute the absolute form of the path part relative to `from_dir` (or the
ambient directory `.` when `from_dir` is unset), leaving the scheme and the
fragment intact. -/
def absPathPart (fromDir : Option String) (path : List Char) : List Char :=
  if startsSlash path then path else (fromDir.getD ".").data ++ ('/' :: path)

def absolutizeUrl (fromDir : Option String) (u : String) : String :=
  String.mk ((stemChars u.data).take (schemeHeadLen (stemChars u.data))
    ++ absPathPart fromDir ((stemChars u.data).drop (schemeHeadLen (stemChars u.data)))
    ++ hashSuffixChars u.data)

/-- Modelled from the spec: `abs_ireq` recomputes the absolute form of the
record's link relative to `from_dir`; a record without a link is returned
unchanged, and no other attribute is touched. -/
def absIreq (fromDir : Option String) (i : Ireq) : Ireq :=
  match i.link with
  | none => i
  | some l => { i with link := some { l with url := absolutizeUrl fromDir l.url } }

/-- The fragment-recovery step of `parse_requirements`: if the constructed
record carries no fragment but the original raw requirement string does,
rebuild the record's link with that fragment reattached, carrying every
other link attribute over.  (When the record has no link at all the source
would fail on the attribute access; that branch is unreachable for inputs
pip can construct a fragment-less record from, and the embedding returns the
record unchanged there.) -/
def recoverFragment (p : ParsedReq) (i : Ireq) : Ireq :=
  if fragmentString i = "" then
    if urlFragment p.requirement = "" then i
    else
      match i.link with
      | some l =>
        install_req_from_link_and_ireq
          { l with url := l.url ++ "#" ++ urlFragment p.requirement } i
      | none => i
  else i

/-- The bare path of the relativity inference: the raw requirement text with
any VCS/file-scheme prefix stripped, and on Windows a leading `/` removed. -/
def barePathOf (isWin : Bool) (req : String) : String :=
  let bare0 := stripVcsFileScheme req
  if isWin then String.mk (bare0.data.dropWhile (fun c => c = '/')) else bare0

/-- The relativity-inference step of `parse_requirements`: set
`_was_relative` when the canonical record's link has a file-like scheme and
the bare path is neither rooted at `/` nor (on Windows) drive-letter
rooted. -/
def applyWasRelative (isWin : Bool) (p : ParsedReq) (a : Ireq) : Ireq :=
  match a.link with
  | some l =>
    if strEndsWith (schemeOf l.url) "file"
        && !strStartsWith (barePathOf isWin p.requirement) "/" then
      if !(isWin && isDriveRooted (barePathOf isWin p.requirement)) then
        { a with wasRelative := true }
      else a
    else a
  | none => a

/-- The post-construction pipeline of `parse_requirements` for one line:
fragment recovery, absolutization fix-up, relativity inference. -/
def finishIreq (fromDir : Option String) (isWin : Bool) (p : ParsedReq) (i : Ireq) : Ireq :=
  applyWasRelative isWin p (absIreq fromDir (recoverFragment p i))

/-- One line of `parse_requirements`: construct the record (the external
constructor `install_req_from_parsed_requirement` is passed in as
`construct`), on an installation error retry with the fragment stripped via
`#[^#]+=.+$`, then run the repair pipeline.  A second failure propagates. -/
def processParsedReq (construct : ParsedReq → Except String Ireq)
    (fromDir : Option String) (isWin : Bool) (p : ParsedReq) : Except String Ireq :=
  match construct p with
  | Except.ok i => Except.ok (finishIreq fromDir isWin p i)
  | Except.error _ =>
    match construct { p with requirement := stripFragment p.requirement } with
    | Except.ok i => Except.ok (finishIreq fromDir isWin p i)
    | Except.error e => Except.error e

/-- `parse_requirements` over the stream of raw parsed lines: the records
yielded before the first failing line, paired with the error that aborted
the sequence, if any. -/
def parseRequirementsAcc (construct : ParsedReq → Except String Ireq)
    (fromDir : Option String) (isWin : Bool) : List ParsedReq → List Ireq × Option String
  | [] => ([], none)
  | p :: ps =>
    match processParsedReq construct fromDir isWin p with
    | Except.error e => ([], some e)
    | Except.ok i =>
      let rest := parseRequirementsAcc construct fromDir isWin ps
      (i :: rest.1, rest.2)

/-! ## Writer data model (`writer.py`) -/

/-- Modelled from the spec: the click-style comment formatter `comment`; the
styling it adds is removed again by `unstyle` before any byte reaches the
destination file, so it is the identity on the text. -/
def comment (s : String) : String := s

/-- Modelled from the spec: the fixed unsafe-package exclusion list
`UNSAFE_PACKAGES`; kept as an explicit argument of the writer functions (the
design notes ask for an injected set), with this value as the configured
default. -/
def UNSAFE_PACKAGES : List String := ["distribute", "pip", "setuptools"]

/-- Modelled from the spec: the order-preserving deduplicating helper
`dedup` (first occurrence of each element is kept). -/
def dedupAux (seen : List String) : List String → List String
  | [] => []
  | x :: xs => if x ∈ seen then dedupAux seen xs else x :: dedupAux (x :: seen) xs

/-- Order-preserving deduplication of a string list. -/
def dedupStr (l : List String) : List String := dedupAux [] l

/-- Python string comparison on character lists: lexicographic by code
point (kernel-reducible, unlike the core `String` order). -/
def strLeChars : List Char → List Char → Bool
  | [], _ => true
  | _ :: _, [] => false
  | a :: as, b :: bs => if a = b then strLeChars as bs else decide (a < b)

/-- Python `<=` on strings. -/
def strLe (a b : String) : Bool := strLeChars a.data b.data

/-- The order on strings used by Python `sorted`, as a relation. -/
def strLeOrd (a b : String) : Prop := strLe a b = true

instance : DecidableRel strLeOrd := fun a b => by
  unfold strLeOrd; infer_instance

/-- Python `sorted` on strings: lexicographic by code point. -/
def sortStrings (l : List String) : List String :=
  List.insertionSort strLeOrd l

/-- `MESSAGE_UNHASHED_PACKAGE` from `writer.py`. -/
def MESSAGE_UNHASHED_PACKAGE : String :=
  comment ("# WARNING: pip install will require the following package to be hashed."
    ++ "\n# Consider using a hashable URL like "
    ++ "https://github.com/jazzband/pip-tools/archive/SOMECOMMIT.zip")

/-- `MESSAGE_UNSAFE_PACKAGES_UNPINNED` from `writer.py`. -/
def MESSAGE_UNSAFE_PACKAGES_UNPINNED : String :=
  comment ("# WARNING: The following packages were not pinned, but pip requires them to be"
    ++ "\n# pinned when the requirements file includes hashes. "
    ++ "Consider using the --allow-unsafe flag.")

/-- `MESSAGE_UNSAFE_PACKAGES` from `writer.py`. -/
def MESSAGE_UNSAFE_PACKAGES : String :=
  comment "# The following packages are considered to be unsafe in a requirements file:"

/-- `MESSAGE_UNINSTALLABLE` from `writer.py` (logged, never written). -/
def MESSAGE_UNINSTALLABLE : String :=
  "The generated requirements file may be rejected by pip install. "
    ++ "See # WARNING lines for details."

/-- The `OutputWriter` configuration.  `format_control` is inlined as its two
string collections; `pythonVersion` and `compileCommand` model the
environment inputs of the header (interpreter version, and the
`CUSTOM_COMPILE_COMMAND` override or derived reproduction command). -/
structure OutputWriter where
  dryRun : Bool
  emitHeader : Bool
  emitIndexUrl : Bool
  emitTrustedHost : Bool
  annotate : Bool
  stripExtras : Bool
  generateHashes : Bool
  defaultIndexUrl : String
  indexUrls : List String
  trustedHosts : List String
  noBinary : List String
  onlyBinary : List String
  allowUnsafeFlag : Bool
  findLinks : List String
  emitFindLinks : Bool
  emitOptions : Bool
  pythonVersion : String
  compileCommand : String
deriving DecidableEq

/-- `_sort_key`: the two-part sort key `(not ireq.editable, key_from_ireq(ireq))`
encoded as a numeric first component (Python `False` sorts before `True`, so
editable records, whose first component is `False`, come first). -/
def editRank (i : Ireq) : Nat := if i.editable then 0 else 1

/-- The order on requirement records induced by `_sort_key` under Python
`sorted` (lexicographic on the pair). -/
def writerOrd (a b : Ireq) : Prop :=
  editRank a < editRank b ∨ (editRank a = editRank b ∧ strLe (keyFromIreq a) (keyFromIreq b) = true)

instance : DecidableRel writerOrd := fun a b => by
  unfold writerOrd; infer_instance

theorem strLeChars_total : ∀ x y, strLeChars x y = true ∨ strLeChars y x = true := by
  intro x
  induction x with
  | nil => intro y; exact Or.inl rfl
  | cons a as ih =>
    intro y
    cases y with
    | nil => exact Or.inr rfl
    | cons b bs =>
      by_cases hab : a = b
      · subst hab
        rcases ih bs with h | h
        · exact Or.inl (by simpa [strLeChars] using h)
        · exact Or.inr (by simpa [strLeChars] using h)
      · rcases lt_or_gt_of_ne hab with h | h
        · exact Or.inl (by simp [strLeChars, hab, h])
        · exact Or.inr (by simp [strLeChars, Ne.symm hab, h])

theorem strLeChars_trans : ∀ x y z, strLeChars x y = true → strLeChars y z = true →
    strLeChars x z = true := by
  intro x
  induction x with
  | nil => intro y z _ _; rfl
  | cons a as ih =>
    intro y z hxy hyz
    cases y with
    | nil => simp [strLeChars] at hxy
    | cons b bs =>
      cases z with
      | nil => simp [strLeChars] at hyz
      | cons c cs =>
        by_cases hab : a = b
        · subst hab
          by_cases hbc : a = c
          · subst hbc
            simp only [strLeChars, if_pos rfl] at hxy hyz ⊢
            exact ih bs cs hxy hyz
          · simp only [strLeChars, if_pos rfl] at hxy
            simpa [strLeChars, hbc] using hyz
        · by_cases hbc : b = c
          · subst hbc
            simpa [strLeChars, hab] using hxy
          · simp only [strLeChars, if_neg hab, decide_eq_true_eq] at hxy
            simp only [strLeChars, if_neg hbc, decide_eq_true_eq] at hyz
            have hac : a < c := lt_trans hxy hyz
            simp [strLeChars, ne_of_lt hac, hac]

instance : IsTotal String strLeOrd := by
  constructor
  intro a b
  exact strLeChars_total a.data b.data

instance : IsTrans String strLeOrd := by
  constructor
  intro a b c hab hbc
  exact strLeChars_trans a.data b.data c.data hab hbc

instance : IsTotal Ireq writerOrd := by
  constructor
  intro a b
  rcases Nat.lt_trichotomy (editRank a) (editRank b) with h | h | h
  · exact Or.inl (Or.inl h)
  · rcases strLeChars_total (keyFromIreq a).data (keyFromIreq b).data with hk | hk
    · exact Or.inl (Or.inr ⟨h, hk⟩)
    · exact Or.inr (Or.inr ⟨h.symm, hk⟩)
  · exact Or.inr (Or.inl h)

instance : IsTrans Ireq writerOrd := by
  constructor
  intro a b c hab hbc
  rcases hab with hab | ⟨hab, hk1⟩
  · rcases hbc with hbc | ⟨hbc, _⟩
    · exact Or.inl (Nat.lt_trans hab hbc)
    · exact Or.inl (hbc ▸ hab)
  · rcases hbc with hbc | ⟨hbc, hk2⟩
    · exact Or.inl (hab ▸ hbc)
    · exact Or.inr ⟨hab.trans hbc,
        strLeChars_trans (keyFromIreq a).data (keyFromIreq b).data (keyFromIreq c).data hk1 hk2⟩

/-- Membership test `r.name in UNSAFE_PACKAGES` on an optional name (`None`
is never in a list of strings). -/
def memName : Option String → List String → Bool
  | none, _ => false
  | some n, l => l.contains n

/-- `hashes.get(ireq)` on the association-list model of the hash index,
returning the empty list for a missing entry (Python treats a missing entry
and an empty set alike wherever this lookup is consumed). -/
def lookupHashes (hl : List (Ireq × List String)) (i : Ireq) : List String :=
  match hl.find? (fun p => p.1 == i) with
  | some p => p.2
  | none => []

/-- `has_hashes`: the hash index contains at least one entry with a nonempty
hash set (`hashes and any(hash for hash in hashes.values())`). -/
def hasHashes (hl : List (Ireq × List String)) : Bool :=
  hl.any (fun p => !p.2.isEmpty)

/-- Concatenation of the per-element line chunks of a generator loop. -/
def catMap (f : α → List β) : List α → List β
  | [] => []
  | x :: xs => f x ++ catMap f xs

/-! ## `_comes_from_as_string` and its two provenance patterns -/

/-- The `(-[rc]) ` prefix of the file-and-line pattern. -/
def optsHead (s : String) : Option String :=
  if strStartsWith s "-r " then some "-r"
  else if strStartsWith s "-c " then some "-c"
  else none

/-- Match the tail of `^(-[rc]) (?P<path>.+)(?P<line_num> \(line \d+\))$`
against the text after the option prefix: the greedy path group leaves the
last ` (line <digits>)` suffix, which is parsed deterministically from the
end.  Returns the path group. -/
def lineNumSplit (body : List Char) : Option (List Char) :=
  match body.reverse with
  | ')' :: r1 =>
    let ds := r1.takeWhile (fun c => c.isDigit)
    if ds.isEmpty then none
    else
      let r2 := r1.drop ds.length
      let marker := " (line ".data.reverse
      if marker.isPrefixOf r2 then
        let pathRev := r2.drop marker.length
        if pathRev.isEmpty then none else some pathRev.reverse
      else none
  | _ => none

/-- `comes_from_line_re`: match `^(-[rc]) (.+)( \(line \d+\))$`, returning
the option token and the path group. -/
def matchComesFromLine (s : String) : Option (String × String) :=
  match optsHead s with
  | none => none
  | some o =>
    match lineNumSplit (strDrop s 3).data with
    | some p => some (o, String.mk p)
    | none => none

/-- The path group of `comes_from_line_project_re` must end in a path
separator followed by one of the three recognized project filenames, with at
least one character before the separator. -/
def projectPathOk (p : List Char) : Bool :=
  ["setup.py", "setup.cfg", "pyproject.toml"].any (fun f =>
    let s := String.mk p
    (strEndsWith s ("/" ++ f) || strEndsWith s ("\\" ++ f)) && decide (p.length > f.length + 1))

/-- All splits of a character list at a ` (` marker: pairs of the part
before the marker and the part after it, ordered by increasing length of the
first part. -/
def projSplits : List Char → List (List Char × List Char)
  | [] => []
  | c :: rest =>
    let tailSplits := (projSplits rest).map (fun p => (c :: p.1, p.2))
    match c, rest with
    | ' ', '(' :: r => ([], r) :: tailSplits
    | _, _ => tailSplits

/-- `comes_from_line_project_re`: match
`^(.+) \((.+(/|\\)(setup\.(py|cfg)|pyproject\.toml))\)$`, returning the name
and path groups; the greedy name group corresponds to the last valid split. -/
def matchComesFromProject (s : String) : Option (String × String) :=
  if strEndsWith s ")" then
    let body := (strDropRight s 1).data
    let valid := (projSplits body).filter (fun p => !p.1.isEmpty && projectPathOk p.2)
    match valid.getLast? with
    | some p => some (String.mk p.1, String.mk p.2)
    | none => none
  else none

/-- `_comes_from_as_string`: render the origin of a record.  A back-reference
renders as the parent identity; a string origin matching the file-and-line
pattern renders as `<-r|-c> <path>`, converted relative to `from_dir` when
that is given and `os.path.relpath` (passed in as `rel`, `none` modelling the
`ValueError` fallback) succeeds; a project-file origin renders as
`<name> (<path>)` with the same relativization; anything else passes through
verbatim.  (The `absent` case is unreachable: every caller guards on a
truthy origin.) -/
def comesFromAsString (rel : String → String → Option String)
    (c : ComesFrom) (fromDir : Option String) : String :=
  match c with
  | ComesFrom.parent k => k
  | ComesFrom.absent => ""
  | ComesFrom.str s =>
    match matchComesFromLine s with
    | some op =>
      (match fromDir with
        | some d =>
          (match rel op.2 d with
            | some rp => op.1 ++ " " ++ rp
            | none => op.1 ++ " " ++ op.2)
        | none => op.1 ++ " " ++ op.2)
    | none =>
      match matchComesFromProject s with
      | some np =>
        (match fromDir with
          | some d =>
            (match rel np.2 d with
              | some rp => np.1 ++ " (" ++ rp ++ ")"
              | none => np.1 ++ " (" ++ np.2 ++ ")")
          | none => np.1 ++ " (" ++ np.2 ++ ")")
      | none => s

/-! ## `strip_extras` substitution: `re.sub(r"\[.+?\]", "", line)` -/

/-- Scan for the first `]` (the closing bracket of a non-greedy `.+?\]`
match); abort at a newline, which `.` does not match. -/
def scanRB : List Char → Option (List Char)
  | [] => none
  | c :: r => if c = ']' then some r else if c = '\n' then none else scanRB r

/-- Given the characters after a `[`, the remainder after a complete
`\[.+?\]` match at that `[`, if any: one mandatory non-newline character,
then everything up to and including the first `]`. -/
def afterBracket : List Char → Option (List Char)
  | [] => none
  | c :: rest => if c = '\n' then none else scanRB rest

/-- Fuel-driven core of the global substitution: at each position, if a
bracketed segment starts here, drop it and continue after it; otherwise copy
the character.  The fuel only has to dominate the length of the list. -/
def seFuel : Nat → List Char → List Char
  | _, [] => []
  | 0, l => l
  | Nat.succ n, c :: rest =>
    if c = '[' then
      match afterBracket rest with
      | some r => seFuel n r
      | none => c :: seFuel n rest
    else c :: seFuel n rest

/-- `re.sub(r"\[.+?\]", "", ·)` on a character list: remove every
non-overlapping, leftmost-first, non-greedy bracketed segment. -/
def stripExtrasChars (l : List Char) : List Char := seFuel l.length l

/-- `re.sub(r"\[.+?\]", "", s)` on a string. -/
def stripExtrasStr (s : String) : String := String.mk (stripExtrasChars s.data)

/-! ## `_format_requirement` -/

/-- Modelled from the spec: the marker part of `format_requirement` — the
marker expression appended after ` ; ` when a marker applies. -/
def markerText : Option String → String
  | some m => " ; " ++ m
  | none => ""

/-- Modelled from the spec: the hash part of `format_requirement` — each
hash appended as a `--hash=` fragment. -/
def hashesText (hs : List String) : String :=
  String.join (hs.map (fun h => " --hash=" ++ h))

/-- Modelled from the spec: `format_requirement` — the requirement's
canonical text representation, the marker appended when present, then the
hashes. -/
def formatRequirementLine (i : Ireq) (marker : Option String) (hs : List String) : String :=
  i.reqText ++ markerText marker ++ hashesText hs

/-- Truthiness of a `comes_from` value: `None` and the empty string are
falsy, a back-reference and any nonempty string are truthy. -/
def comesFromTruthy : ComesFrom → Bool
  | ComesFrom.absent => false
  | ComesFrom.str s => !(s = "")
  | ComesFrom.parent _ => true

/-- The `required_by` provenance set of `_format_requirement`: the origins of
the fan-in contributors when `_source_ireqs` is present, else the record's
own origin when truthy.  `os.path.relpath` is threaded through as `rel`;
note that `_comes_from_as_string` is invoked without a base directory. -/
def requiredBy (rel : String → String → Option String) (i : Ireq) : List String :=
  match i.sourceComesFrom with
  | some srcs =>
    (srcs.filter comesFromTruthy).map (fun c => comesFromAsString rel c none)
  | none =>
    if comesFromTruthy i.comes_from then [comesFromAsString rel i.comes_from none] else []

/-- The `# via` annotation block appended by `_format_requirement` for a
nonempty provenance set: single-line for one contributor, a multi-line block
for several, alphabetically sorted. -/
def viaAnnotation (sources : List String) : String :=
  match sources with
  | [] => ""
  | [s] => comment ("    # via " ++ s)
  | many => comment ("    # via" ++ String.join (many.map (fun s => "\n" ++ "    #   " ++ s)))

/-- `_format_requirement`: compose the base line from the record, marker and
hashes; apply the extras-stripping substitution to the whole composed line
when enabled; then, when annotation is enabled and provenance exists, append
the sorted, deduplicated `# via` block. -/
def formatBase (w : OutputWriter) (i : Ireq) (marker : Option String)
    (hashes : List (Ireq × List String)) : String :=
  if w.stripExtras then stripExtrasStr (formatRequirementLine i marker (lookupHashes hashes i))
  else formatRequirementLine i marker (lookupHashes hashes i)

def OutputWriter.formatRequirement (w : OutputWriter) (rel : String → String → Option String)
    (i : Ireq) (marker : Option String) (hashes : List (Ireq × List String)) : String :=
  if !w.annotate then formatBase w i marker hashes
  else
    if (sortStrings (dedupStr (requiredBy rel i))).isEmpty then formatBase w i marker hashes
    else formatBase w i marker hashes ++ "\n"
      ++ viaAnnotation (sortStrings (dedupStr (requiredBy rel i)))

/-! ## The flag generators and `_iter_lines` -/

/-- `write_header`. -/
def OutputWriter.writeHeader (w : OutputWriter) : List String :=
  if w.emitHeader then
    [comment "#",
     comment ("# This file is autogenerated by pip-compile with python " ++ w.pythonVersion),
     comment "# To update, run:",
     comment "#",
     comment ("#    " ++ w.compileCommand),
     comment "#"]
  else []

/-- `rstrip("/")` on a URL. -/
def rstripSlashes (s : String) : String :=
  String.mk ((s.data.reverse.dropWhile (fun c => c = '/')).reverse)

/-- `write_index_options`: deduplicated index URLs; the first becomes
`--index-url` unless it equals the configured default, the rest become
`--extra-index-url`. -/
def OutputWriter.writeIndexOptions (w : OutputWriter) : List String :=
  if w.emitIndexUrl then
    match dedupStr w.indexUrls with
    | [] => []
    | u :: rest =>
      (if rstripSlashes u = w.defaultIndexUrl then [] else ["--index-url " ++ u])
        ++ rest.map (fun v => "--extra-index-url " ++ v)
  else []

/-- `write_trusted_hosts`. -/
def OutputWriter.writeTrustedHosts (w : OutputWriter) : List String :=
  if w.emitTrustedHost then (dedupStr w.trustedHosts).map (fun h => "--trusted-host " ++ h)
  else []

/-- `write_format_controls`: both collections sorted, then deduplicated. -/
def OutputWriter.writeFormatControls (w : OutputWriter) : List String :=
  (dedupStr (sortStrings w.noBinary)).map (fun s => "--no-binary " ++ s)
    ++ (dedupStr (sortStrings w.onlyBinary)).map (fun s => "--only-binary " ++ s)

/-- `write_find_links`. -/
def OutputWriter.writeFindLinks (w : OutputWriter) : List String :=
  if w.emitFindLinks then (dedupStr w.findLinks).map (fun s => "--find-links " ++ s)
  else []

/-- `write_flags`: the four flag generators in order, followed by a single
blank separator line iff at least one flag line was emitted; nothing when
`emit_options` is off. -/
def OutputWriter.writeFlags (w : OutputWriter) : List String :=
  if !w.emitOptions then []
  else
    let ls := w.writeIndexOptions ++ w.writeFindLinks ++ w.writeTrustedHosts ++ w.writeFormatControls
    if ls.isEmpty then [] else ls ++ [""]

/-- The normal packages of one `_iter_lines` call: the records whose name is
not in the unsafe-package list, sorted by `_sort_key`.  (Python sorts a set
comprehension, whose iteration order is unspecified, so among records with
equal sort keys the source fixes no order; any list sorted by the key
relation is a faithful model.) -/
def sortedPackages (unsafePkgs : List String) (results : List Ireq) : List Ireq :=
  List.insertionSort writerOrd (results.filter (fun r => !memName r.name unsafePkgs))

/-- The derived unsafe subset of `_iter_lines`: the passed subset when it is
truthy, otherwise the records of the resolved set whose name is in the
unsafe-package list. -/
def effectiveUnsafeSubset (unsafePkgs : List String) (results unsafeParam : List Ireq) : List Ireq :=
  if unsafeParam.isEmpty then results.filter (fun r => memName r.name unsafePkgs) else unsafeParam

/-- The normal-packages block of `_iter_lines`: one formatted requirement
line per sorted package, preceded by the unhashed-package warning when the
hash index is active but carries nothing for this record. -/
def normalLines (w : OutputWriter) (rel : String → String → Option String)
    (unsafePkgs : List String) (results : List Ireq)
    (markers : String → Option String) (hashes : List (Ireq × List String)) : List String :=
  catMap (fun i =>
      (if hasHashes hashes && (lookupHashes hashes i).isEmpty then [MESSAGE_UNHASHED_PACKAGE] else [])
        ++ [w.formatRequirement rel i (markers (keyFromIreq i)) hashes])
    (sortedPackages unsafePkgs results)

/-- The unsafe-packages block of `_iter_lines`: when the unsafe subset is
nonempty, a blank line, the banner selected by the hash/allow-unsafe state,
then per unsafe record either a commented identity line or a fully formatted
requirement line. -/
def unsafeBlockLines (w : OutputWriter) (rel : String → String → Option String)
    (unsafePkgs : List String) (results unsafeParam : List Ireq)
    (markers : String → Option String) (hashes : List (Ireq × List String)) : List String :=
  if (effectiveUnsafeSubset unsafePkgs results unsafeParam).isEmpty then []
  else
    "" :: (if hasHashes hashes && !w.allowUnsafeFlag then MESSAGE_UNSAFE_PACKAGES_UNPINNED
           else MESSAGE_UNSAFE_PACKAGES)
      :: catMap (fun i =>
          if !w.allowUnsafeFlag then [comment ("# " ++ keyFromIreq i)]
          else [w.formatRequirement rel i (markers (keyFromIreq i)) hashes])
        (List.insertionSort writerOrd (effectiveUnsafeSubset unsafePkgs results unsafeParam))

/-- The `warn_uninstallable` flag of `_iter_lines`: set inside the normal
loop for an unhashed package while the hash index is active, or in the
unsafe block when unsafe packages stay unpinned under hashes. -/
def warnUninstallable (w : OutputWriter) (unsafePkgs : List String)
    (results unsafeParam : List Ireq) (hashes : List (Ireq × List String)) : Bool :=
  (hasHashes hashes
      && (sortedPackages unsafePkgs results).any (fun i => (lookupHashes hashes i).isEmpty))
    || (hasHashes hashes && !w.allowUnsafeFlag
          && !(effectiveUnsafeSubset unsafePkgs results unsafeParam).isEmpty)

/-- `_iter_lines`: header, flags, normal packages, unsafe block, in that
order; a single empty line when nothing was yielded.  The Boolean component
is `warn_uninstallable`, consulted only after every line has been produced
(the aggregated warning is logged, never written into the file). -/
def iterLinesRaw (w : OutputWriter) (rel : String → String → Option String)
    (unsafePkgs : List String) (results unsafeParam : List Ireq)
    (markers : String → Option String) (hashes : List (Ireq × List String)) : List String :=
  w.writeHeader ++ w.writeFlags
    ++ normalLines w rel unsafePkgs results markers hashes
    ++ unsafeBlockLines w rel unsafePkgs results unsafeParam markers hashes

def iterLines (w : OutputWriter) (rel : String → String → Option String)
    (unsafePkgs : List String) (results unsafeParam : List Ireq)
    (markers : String → Option String) (hashes : List (Ireq × List String)) :
    List String × Bool :=
  (if (iterLinesRaw w rel unsafePkgs results unsafeParam markers hashes).isEmpty then [""]
   else iterLinesRaw w rel unsafePkgs results unsafeParam markers hashes,
   warnUninstallable w unsafePkgs results unsafeParam hashes)

/-- `write`: every line of `_iter_lines` is logged; unless this is a dry
run, each line is unstyled and written to the destination followed by the
platform line terminator (modelled as the written sequence of terminated
lines, empty for a dry run). -/
def OutputWriter.write (w : OutputWriter) (rel : String → String → Option String)
    (unsafePkgs : List String) (results unsafeParam : List Ireq)
    (markers : String → Option String) (hashes : List (Ireq × List String)) : List String :=
  if w.dryRun then []
  else (iterLines w rel unsafePkgs results unsafeParam markers hashes).1.map (fun l => l ++ "\n")


/-! ## Support lemmas: fragments, schemes, ingester pipeline -/

theorem hashSuffixChars_eq_nil (u : List Char) (hu : ∀ c ∈ u, c ≠ '#') :
    hashSuffixChars u = [] := by
  induction u with
  | nil => rfl
  | cons c rest ih =>
    have hc : c ≠ '#' := hu c (List.mem_cons_self c rest)
    simp only [hashSuffixChars, if_neg hc]
    exact ih (fun d hd => hu d (List.mem_cons_of_mem c hd))

theorem hashSuffixChars_append (u v : List Char) (hu : ∀ c ∈ u, c ≠ '#') :
    hashSuffixChars (u ++ '#' :: v) = '#' :: v := by
  induction u with
  | nil => simp [hashSuffixChars]
  | cons c rest ih =>
    have hc : c ≠ '#' := hu c (List.mem_cons_self c rest)
    simp only [List.cons_append, hashSuffixChars, if_neg hc]
    exact ih (fun d hd => hu d (List.mem_cons_of_mem c hd))

theorem stemChars_eq_self (u : List Char) (hu : ∀ c ∈ u, c ≠ '#') :
    stemChars u = u := by
  induction u with
  | nil => rfl
  | cons c rest ih =>
    have hc : c ≠ '#' := hu c (List.mem_cons_self c rest)
    simp only [stemChars, if_neg hc]
    exact congrArg (c :: ·) (ih (fun d hd => hu d (List.mem_cons_of_mem c hd)))

theorem stemChars_append (u v : List Char) (hu : ∀ c ∈ u, c ≠ '#') :
    stemChars (u ++ '#' :: v) = u := by
  induction u with
  | nil => simp [stemChars]
  | cons c rest ih =>
    have hc : c ≠ '#' := hu c (List.mem_cons_self c rest)
    simp only [List.cons_append, stemChars, if_neg hc]
    exact congrArg (c :: ·) (ih (fun d hd => hu d (List.mem_cons_of_mem c hd)))

theorem urlFragment_eq_empty (s : String) (hs : ∀ c ∈ s.data, c ≠ '#') :
    urlFragment s = "" := by
  unfold urlFragment
  rw [hashSuffixChars_eq_nil s.data hs]
  rfl

theorem string_data_hash_append (u f : String) :
    (u ++ "#" ++ f).data = u.data ++ '#' :: f.data := by
  rw [String.data_append, String.data_append, List.append_assoc]
  rfl

/-- The appended-fragment computation used by the recovery step. -/
theorem urlFragment_append (u f : String) (hu : ∀ c ∈ u.data, c ≠ '#') :
    urlFragment (u ++ "#" ++ f) = f := by
  unfold urlFragment
  rw [string_data_hash_append, hashSuffixChars_append u.data f.data hu]
  simp

theorem schemeHeadLenAux_append (u v : List Char) (n k : Nat)
    (h : schemeHeadLenAux u n = some k) : schemeHeadLenAux (u ++ v) n = some k := by
  induction u generalizing n with
  | nil => simp [schemeHeadLenAux] at h
  | cons c rest ih =>
    by_cases hc : c = ':'
    · simpa [schemeHeadLenAux, hc] using h
    · by_cases hs : isSchemeChar c = true
      · simp only [schemeHeadLenAux, if_neg hc, if_pos hs] at h
        simpa [schemeHeadLenAux, hc, hs] using ih (n + 1) h
      · simp [schemeHeadLenAux, hc, hs] at h

theorem schemeHeadLenAux_le (u : List Char) (n k : Nat)
    (h : schemeHeadLenAux u n = some k) : k ≤ n + u.length := by
  induction u generalizing n with
  | nil => simp [schemeHeadLenAux] at h
  | cons c rest ih =>
    by_cases hc : c = ':'
    · simp only [schemeHeadLenAux, if_pos hc, Option.some_inj] at h
      simp only [List.length_cons]
      omega
    · by_cases hs : isSchemeChar c = true
      · simp only [schemeHeadLenAux, if_neg hc, if_pos hs] at h
        have := ih (n + 1) h
        simp only [List.length_cons]
        omega
      · simp [schemeHeadLenAux, hc, hs] at h

theorem schemeHeadLen_append (u v : List Char) (h : schemeHeadLen u ≠ 0) :
    schemeHeadLen (u ++ v) = schemeHeadLen u := by
  cases u with
  | nil => simp [schemeHeadLen] at h
  | cons c rest =>
    rw [List.cons_append]
    by_cases ha : c.isAlpha = true
    · simp only [schemeHeadLen, ha, if_true] at h ⊢
      cases haux : schemeHeadLenAux (c :: rest) 0 with
      | none => rw [haux] at h; simp at h
      | some k =>
        have h2 := schemeHeadLenAux_append (c :: rest) v 0 k haux
        rw [List.cons_append] at h2
        rw [h2]
    · simp [schemeHeadLen, ha] at h

theorem schemeHeadLen_le (u : List Char) : schemeHeadLen u ≤ u.length := by
  cases u with
  | nil => simp [schemeHeadLen]
  | cons c rest =>
    by_cases ha : c.isAlpha = true
    · simp only [schemeHeadLen, ha, if_true]
      cases haux : schemeHeadLenAux (c :: rest) 0 with
      | none => simp
      | some k =>
        have := schemeHeadLenAux_le (c :: rest) 0 k haux
        simpa using this
    · simp [schemeHeadLen, ha]

theorem schemeOf_ne_empty_headLen (u : String) (h : schemeOf u ≠ "") :
    schemeHeadLen u.data ≠ 0 := by
  intro h0
  apply h
  unfold schemeOf
  rw [h0]
  simp

theorem schemeOf_append (u v : String) (h : schemeHeadLen u.data ≠ 0) :
    schemeOf (u ++ v) = schemeOf u := by
  unfold schemeOf
  rw [String.data_append, schemeHeadLen_append u.data v.data h]
  have hle : schemeHeadLen u.data - 1 ≤ u.data.length :=
    le_trans (Nat.sub_le _ _) (schemeHeadLen_le u.data)
  rw [List.take_append_of_le_length hle]

theorem strEndsWith_empty_file : strEndsWith "" "file" = false := by decide

/-- `recover_fragment` never touches the relativity flag. -/
theorem recoverFragment_wasRelative (p : ParsedReq) (i : Ireq) :
    (recoverFragment p i).wasRelative = i.wasRelative := by
  unfold recoverFragment install_req_from_link_and_ireq
  split
  · split
    · rfl
    · split <;> rfl
  · rfl

/-- `abs_ireq` never touches the relativity flag. -/
theorem absIreq_wasRelative (d : Option String) (i : Ireq) :
    (absIreq d i).wasRelative = i.wasRelative := by
  unfold absIreq
  split <;> rfl

/-- The relativity-inference step only raises the flag when the canonical
record has a link with a file-like scheme. -/
theorem applyWasRelative_invariant (isWin : Bool) (p : ParsedReq) (a : Ireq)
    (ha : a.wasRelative = false)
    (h : (applyWasRelative isWin p a).wasRelative = true) :
    ∃ l, (applyWasRelative isWin p a).link = some l
      ∧ strEndsWith (schemeOf l.url) "file" = true := by
  cases hl : a.link with
  | none =>
    have heq : applyWasRelative isWin p a = a := by
      unfold applyWasRelative
      rw [hl]
    rw [heq] at h
    rw [ha] at h
    cases h
  | some l =>
    have heq : applyWasRelative isWin p a =
        if strEndsWith (schemeOf l.url) "file"
            && !strStartsWith (barePathOf isWin p.requirement) "/" then
          if !(isWin && isDriveRooted (barePathOf isWin p.requirement)) then
            { a with wasRelative := true }
          else a
        else a := by
      unfold applyWasRelative
      rw [hl]
    rw [heq] at h ⊢
    by_cases h1 : (strEndsWith (schemeOf l.url) "file"
        && !strStartsWith (barePathOf isWin p.requirement) "/") = true
    · rw [if_pos h1] at h ⊢
      by_cases h2 : (!(isWin && isDriveRooted (barePathOf isWin p.requirement))) = true
      · rw [if_pos h2]
        exact ⟨l, hl, ((Bool.and_eq_true _ _).mp h1).1⟩
      · rw [if_neg h2] at h
        rw [ha] at h
        cases h
    · rw [if_neg h1] at h
      rw [ha] at h
      cases h

/-- The pipeline after construction only raises the flag when the yielded
record has a link with a file-like scheme. -/
theorem finishIreq_invariant (fromDir : Option String) (isWin : Bool)
    (p : ParsedReq) (i : Ireq) (hi : i.wasRelative = false)
    (h : (finishIreq fromDir isWin p i).wasRelative = true) :
    ∃ l, (finishIreq fromDir isWin p i).link = some l
      ∧ strEndsWith (schemeOf l.url) "file" = true := by
  unfold finishIreq at h ⊢
  apply applyWasRelative_invariant isWin p _ _ h
  rw [absIreq_wasRelative, recoverFragment_wasRelative]
  exact hi

/-- When both constructions fail, the second installation error is the one
that propagates. -/
theorem processParsedReq_both_fail (construct : ParsedReq → Except String Ireq)
    (fromDir : Option String) (isWin : Bool) (p : ParsedReq) (e1 e2 : String)
    (h1 : construct p = Except.error e1)
    (h2 : construct { p with requirement := stripFragment p.requirement } = Except.error e2) :
    processParsedReq construct fromDir isWin p = Except.error e2 := by
  unfold processParsedReq
  rw [h1]
  have h3 : (match construct { p with requirement := stripFragment p.requirement } with
      | Except.ok i => Except.ok (finishIreq fromDir isWin p i)
      | Except.error e => Except.error e) = (Except.error e2 : Except String Ireq) := by
    rw [h2]
  exact h3

/-- C8: a raw parsed line whose requirement construction fails both directly
and after stripping the fragment via `#[^#]+=.+$` makes `parse_requirements`
propagate the second installation error unmodified: the sequence yields only
the records of the preceding lines and aborts, skipping nothing and
yielding nothing further. -/
theorem c8_error_propagation (construct : ParsedReq → Except String Ireq)
    (fromDir : Option String) (isWin : Bool) (p : ParsedReq) (e1 e2 : String)
    (l1 l2 : List ParsedReq)
    (h1 : construct p = Except.error e1)
    (h2 : construct { p with requirement := stripFragment p.requirement } = Except.error e2)
    (hok : ∀ q ∈ l1, ∃ i, processParsedReq construct fromDir isWin q = Except.ok i) :
    (parseRequirementsAcc construct fromDir isWin (l1 ++ p :: l2)).2 = some e2
      ∧ (parseRequirementsAcc construct fromDir isWin (l1 ++ p :: l2)).1.length = l1.length := by
  have hp := processParsedReq_both_fail construct fromDir isWin p e1 e2 h1 h2
  induction l1 with
  | nil =>
    simp only [List.nil_append]
    constructor <;> simp [parseRequirementsAcc, hp]
  | cons q qs ih =>
    obtain ⟨i, hcq⟩ := hok q (List.mem_cons_self q qs)
    have ihh := ih (fun r hr => hok r (List.mem_cons_of_mem q hr))
    simp only [List.cons_append, parseRequirementsAcc, hcq]
    exact ⟨ihh.1, by simp [ihh.2]⟩

/-- C9: a record yielded by `parse_requirements` with `_was_relative` set
carries a link whose scheme ends in `file`; the flag is never set on a
network-URL record (whose scheme does not end in `file`).  The external
constructor is assumed not to pre-set the bolted-on flag. -/
theorem c9_was_relative_file_scheme (construct : ParsedReq → Except String Ireq)
    (fromDir : Option String) (isWin : Bool) (p : ParsedReq) (r : Ireq)
    (hc : ∀ q i, construct q = Except.ok i → i.wasRelative = false)
    (h : processParsedReq construct fromDir isWin p = Except.ok r)
    (hwr : r.wasRelative = true) :
    ∃ l, r.link = some l ∧ strEndsWith (schemeOf l.url) "file" = true := by
  unfold processParsedReq at h
  cases hcp : construct p with
  | ok i =>
    rw [hcp] at h
    have h2 : Except.ok (finishIreq fromDir isWin p i) = Except.ok r := h
    injection h2 with h3
    subst h3
    exact finishIreq_invariant fromDir isWin p i (hc p i hcp) hwr
  | error e =>
    rw [hcp] at h
    cases hcq : construct { p with requirement := stripFragment p.requirement } with
    | ok i =>
      rw [hcq] at h
      have h2 : Except.ok (finishIreq fromDir isWin p i) = Except.ok r := h
      injection h2 with h3
      subst h3
      exact finishIreq_invariant fromDir isWin p i (hc _ i hcq) hwr
    | error e2 =>
      rw [hcq] at h
      have h2 : (Except.error e2 : Except String Ireq) = Except.ok r := h
      cases h2

/-- C5: determinism of the writer — with the configuration, the resolved
set, the unsafe subset, the marker index and the hash index fixed, two runs
of `_iter_lines` (and of `write`) produce identical line sequences; the
embedded writer is a pure function of its inputs, with no hidden state
surviving between calls. -/
theorem c5_writer_determinism (w : OutputWriter) (rel : String → String → Option String)
    (unsafePkgs : List String) (results unsafeParam : List Ireq)
    (markers : String → Option String) (hashes : List (Ireq × List String)) :
    iterLines w rel unsafePkgs results unsafeParam markers hashes
        = iterLines w rel unsafePkgs results unsafeParam markers hashes
      ∧ OutputWriter.write w rel unsafePkgs results unsafeParam markers hashes
        = OutputWriter.write w rel unsafePkgs results unsafeParam markers hashes :=
  ⟨rfl, rfl⟩

/-- The identity computation of `abs_ireq` on an already-absolute file URL
carrying a reattached fragment. -/
theorem absolutizeUrl_absolute (fromDir : Option String) (u f : String)
    (hu : ∀ c ∈ u.data, c ≠ '#') (habs : startsSlash (urlPathPart u) = true) :
    absolutizeUrl fromDir (u ++ "#" ++ f) = u ++ "#" ++ f := by
  unfold absolutizeUrl absPathPart
  rw [string_data_hash_append, stemChars_append u.data f.data hu,
    hashSuffixChars_append u.data f.data hu]
  have hstem : stemChars u.data = u.data := stemChars_eq_self u.data hu
  unfold urlPathPart at habs
  rw [hstem] at habs
  rw [if_pos habs, List.take_append_drop, ← string_data_hash_append]

/-- `abs_ireq` is the identity on a record whose link URL absolutizes to
itself. -/
theorem absIreq_id (fromDir : Option String) (i : Ireq) (l : PipLink)
    (h : i.link = some l) (hid : absolutizeUrl fromDir l.url = l.url) :
    absIreq fromDir i = i := by
  unfold absIreq
  rw [h]
  show ({ i with link := some { l with url := absolutizeUrl fromDir l.url } } : Ireq) = i
  rw [hid]
  cases i with
  | mk n k t e cf s li wr =>
    simp only at h
    subst h
    rfl

/-- The relativity-inference step sets the flag outright when its three
guards hold. -/
theorem applyWasRelative_set (isWin : Bool) (p : ParsedReq) (a : Ireq) (l : PipLink)
    (hl : a.link = some l)
    (h1 : strEndsWith (schemeOf l.url) "file" = true)
    (h2 : strStartsWith (barePathOf isWin p.requirement) "/" = false)
    (h3 : isDriveRooted (barePathOf isWin p.requirement) = false) :
    applyWasRelative isWin p a = { a with wasRelative := true } := by
  unfold applyWasRelative
  rw [hl]
  simp [h1, h2, h3]

/-- The full post-construction pipeline on the line `../pkg#egg=name`:
fragment recovery reattaches `egg=name`, absolutization leaves the
already-absolute file link alone, and relativity inference raises the
flag. -/
theorem finishIreq_relative_fragment (fromDir : Option String) (isWin : Bool)
    (p : ParsedReq) (i : Ireq) (l : PipLink)
    (hreq : p.requirement = "../pkg#egg=name")
    (hlink : i.link = some l)
    (hnh : ∀ c ∈ l.url.data, c ≠ '#')
    (hscheme : strEndsWith (schemeOf l.url) "file" = true)
    (habs : startsSlash (urlPathPart l.url) = true) :
    (finishIreq fromDir isWin p i).link
        = some { l with url := l.url ++ "#" ++ "egg=name" }
      ∧ (finishIreq fromDir isWin p i).wasRelative = true := by
  have hfs : fragmentString i = "" := by
    unfold fragmentString
    rw [hlink]
    exact urlFragment_eq_empty l.url hnh
  have hfrag : urlFragment "../pkg#egg=name" = "egg=name" := by decide
  have hrec : recoverFragment p i
      = { i with link := some { l with url := l.url ++ "#" ++ "egg=name" } } := by
    unfold recoverFragment install_req_from_link_and_ireq
    rw [hreq, hfs, if_pos rfl, hfrag]
    rw [if_neg (by decide : ¬ ("egg=name" : String) = "")]
    rw [hlink]
  have hl2 : (recoverFragment p i).link
      = some { l with url := l.url ++ "#" ++ "egg=name" } := by
    rw [hrec]
  have hne : schemeOf l.url ≠ "" := by
    intro h0
    rw [h0, strEndsWith_empty_file] at hscheme
    cases hscheme
  have hhl := schemeOf_ne_empty_headLen l.url hne
  have habsi : absIreq fromDir (recoverFragment p i) = recoverFragment p i :=
    absIreq_id fromDir _ { l with url := l.url ++ "#" ++ "egg=name" } hl2
      (absolutizeUrl_absolute fromDir l.url "egg=name" hnh habs)
  have hsch2 : strEndsWith (schemeOf (l.url ++ "#" ++ "egg=name")) "file" = true := by
    rw [String.append_assoc, schemeOf_append l.url _ hhl]
    exact hscheme
  have hbare : barePathOf isWin p.requirement = "../pkg#egg=name" := by
    rw [hreq]
    cases isWin <;> decide
  have hsw : strStartsWith (barePathOf isWin p.requirement) "/" = false := by
    rw [hbare]
    decide
  have hdr : isDriveRooted (barePathOf isWin p.requirement) = false := by
    rw [hbare]
    decide
  have happ : applyWasRelative isWin p (recoverFragment p i)
      = { recoverFragment p i with wasRelative := true } :=
    applyWasRelative_set isWin p _ { l with url := l.url ++ "#" ++ "egg=name" }
      hl2 hsch2 hsw hdr
  unfold finishIreq
  rw [habsi, happ]
  exact ⟨hl2, rfl⟩

/-- C1: ingesting the requirement line `../pkg#egg=name` through
`parse_requirements` — when pip's constructor rejects the relative path
carrying a fragment but accepts the fragment-stripped `../pkg`, returning a
fragment-free record with an absolute file link — yields exactly one record,
whose link fragment equals `egg=name` and whose `_was_relative` flag is
true. -/
theorem c1_fragment_repair_roundtrip (construct : ParsedReq → Except String Ireq)
    (fromDir : Option String) (isWin : Bool) (p : ParsedReq)
    (e : String) (i : Ireq) (l : PipLink)
    (hreq : p.requirement = "../pkg#egg=name")
    (hfail : construct p = Except.error e)
    (hok : construct { p with requirement := "../pkg" } = Except.ok i)
    (hlink : i.link = some l)
    (hnh : ∀ c ∈ l.url.data, c ≠ '#')
    (hscheme : strEndsWith (schemeOf l.url) "file" = true)
    (habs : startsSlash (urlPathPart l.url) = true) :
    ∃ r, parseRequirementsAcc construct fromDir isWin [p] = ([r], none)
      ∧ (∃ l2, r.link = some l2 ∧ urlFragment l2.url = "egg=name")
      ∧ r.wasRelative = true := by
  have hstrip : stripFragment p.requirement = "../pkg" := by
    rw [hreq]
    decide
  have hok2 : construct { p with requirement := stripFragment p.requirement }
      = Except.ok i := by
    rw [hstrip]
    exact hok
  have hproc : processParsedReq construct fromDir isWin p
      = Except.ok (finishIreq fromDir isWin p i) := by
    unfold processParsedReq
    rw [hfail]
    have h3 : (match construct { p with requirement := stripFragment p.requirement } with
        | Except.ok i => Except.ok (finishIreq fromDir isWin p i)
        | Except.error e => Except.error e)
        = Except.ok (finishIreq fromDir isWin p i) := by
      rw [hok2]
    exact h3
  obtain ⟨hfin1, hfin2⟩ :=
    finishIreq_relative_fragment fromDir isWin p i l hreq hlink hnh hscheme habs
  refine ⟨finishIreq fromDir isWin p i, ?_, ?_, hfin2⟩
  · simp [parseRequirementsAcc, hproc]
  · refine ⟨{ l with url := l.url ++ "#" ++ "egg=name" }, hfin1, ?_⟩
    exact urlFragment_append l.url "egg=name" hnh

/-- The concrete constructor for the `C1` witness: accepts exactly the
stripped line `../pkg`, producing an absolute file link without fragment. -/
def c1link : PipLink where
  url := "file:///cwd/pkg"
  comes_from := ""
  requires_python := none
  yanked_reason := none
  cache_link_parsing := true

def c1ireq : Ireq where
  name := some "pkg"
  key := "pkg"
  reqText := "pkg"
  editable := false
  comes_from := ComesFrom.absent
  sourceComesFrom := none
  link := some c1link
  wasRelative := false

def c1construct : ParsedReq → Except String Ireq := fun q =>
  if q.requirement = "../pkg" then Except.ok c1ireq else Except.error "InstallationError"

def c1preq : ParsedReq where
  requirement := "../pkg#egg=name"
  is_editable := false
  comes_from := "-r requirements.in (line 1)"
  constraint := false
  options := []
  line_source := none

theorem c1_fragment_repair_roundtrip_witness :
    (c1preq.requirement = "../pkg#egg=name"
      ∧ c1construct c1preq = Except.error "InstallationError"
      ∧ c1construct { c1preq with requirement := "../pkg" } = Except.ok c1ireq
      ∧ c1ireq.link = some c1link
      ∧ (∀ c ∈ c1link.url.data, c ≠ '#')
      ∧ strEndsWith (schemeOf c1link.url) "file" = true
      ∧ startsSlash (urlPathPart c1link.url) = true)
    ∧ (∃ r, parseRequirementsAcc c1construct (some "/cwd") false [c1preq] = ([r], none)
        ∧ (∃ l2, r.link = some l2 ∧ urlFragment l2.url = "egg=name")
        ∧ r.wasRelative = true) :=
  ⟨⟨by decide, rfl, rfl, by decide, by decide, by decide, by decide⟩,
    c1_fragment_repair_roundtrip c1construct (some "/cwd") false c1preq
      "InstallationError" c1ireq c1link (by decide) rfl rfl
      (by decide) (by decide) (by decide) (by decide)⟩

/-- The concrete constructor for the `C8` witness: accepts exactly the line
`ok`. -/
def c8construct : ParsedReq → Except String Ireq := fun q =>
  if q.requirement = "ok" then Except.ok c1ireq
  else Except.error ("bad " ++ q.requirement)

def c8preqBad : ParsedReq := { c1preq with requirement := "x#y=z" }

def c8preqOk : ParsedReq := { c1preq with requirement := "ok" }

theorem c8_error_propagation_witness :
    (c8construct c8preqBad = Except.error "bad x#y=z"
      ∧ c8construct { c8preqBad with requirement := stripFragment c8preqBad.requirement }
          = Except.error "bad x"
      ∧ (∀ q ∈ [c8preqOk], ∃ i, processParsedReq c8construct none false q = Except.ok i))
    ∧ ((parseRequirementsAcc c8construct none false ([c8preqOk] ++ c8preqBad :: [c8preqOk])).2
          = some "bad x"
      ∧ (parseRequirementsAcc c8construct none false ([c8preqOk] ++ c8preqBad :: [c8preqOk])).1.length
          = [c8preqOk].length) :=
  ⟨⟨rfl, rfl, fun q hq => ⟨_, by cases hq with
      | head => rfl
      | tail _ h => cases h⟩⟩,
    c8_error_propagation c8construct none false c8preqBad "bad x#y=z" "bad x"
      [c8preqOk] [c8preqOk] rfl rfl
      (fun q hq => ⟨_, by cases hq with
        | head => rfl
        | tail _ h => cases h⟩)⟩

theorem c9_was_relative_file_scheme_witness :
    ((∀ q i, c8construct q = Except.ok i → i.wasRelative = false)
      ∧ processParsedReq c8construct none false c8preqOk
          = Except.ok (finishIreq none false c8preqOk c1ireq)
      ∧ (finishIreq none false c8preqOk c1ireq).wasRelative = true)
    ∧ (∃ l, (finishIreq none false c8preqOk c1ireq).link = some l
        ∧ strEndsWith (schemeOf l.url) "file" = true) :=
  ⟨⟨fun q i h => by
      by_cases hq : q.requirement = "ok"
      · simp only [c8construct, if_pos hq] at h
        injection h with h2
        rw [← h2]
        rfl
      · simp [c8construct, if_neg hq] at h,
    rfl, by decide⟩,
    c9_was_relative_file_scheme c8construct none false c8preqOk
      (finishIreq none false c8preqOk c1ireq)
      (fun q i h => by
        by_cases hq : q.requirement = "ok"
        · simp only [c8construct, if_pos hq] at h
          injection h with h2
          rw [← h2]
          rfl
        · simp [c8construct, if_neg hq] at h)
      rfl (by decide)⟩

/-! ## Writer support lemmas -/

theorem catMap_singleton (f : α → β) (l : List α) :
    catMap (fun x => [f x]) l = l.map f := by
  induction l with
  | nil => rfl
  | cons x xs ih => simp [catMap, ih]

theorem catMap_mem_split (f : α → List β) (l : List α) (r : α) (h : r ∈ l) :
    ∃ p q, catMap f l = p ++ (f r ++ q) := by
  induction l with
  | nil => cases h
  | cons x xs ih =>
    cases h with
    | head => exact ⟨[], catMap f xs, rfl⟩
    | tail _ hxs =>
      obtain ⟨p, q, hpq⟩ := ih hxs
      exact ⟨f x ++ p, q, by simp [catMap, hpq]⟩

/-- A sorted-package list is a permutation of the filtered resolved set, so
its identity multiset matches and uniqueness transfers. -/
theorem sortedPackages_key_nodup (unsafePkgs : List String) (results : List Ireq)
    (hnodup : (results.map keyFromIreq).Nodup) :
    ((sortedPackages unsafePkgs results).map keyFromIreq).Nodup := by
  have hperm := (List.perm_insertionSort writerOrd
    (results.filter (fun r => !memName r.name unsafePkgs))).map keyFromIreq
  have hsub : ((results.filter (fun r => !memName r.name unsafePkgs)).map keyFromIreq).Sublist
      (results.map keyFromIreq) :=
    List.Sublist.map keyFromIreq (List.filter_sublist results)
  exact hperm.nodup_iff.mpr (hnodup.sublist hsub)

/-- C2: with identities unique in the resolved set (the `ResolvedSet`
invariant), the normal-packages block of `_iter_lines` has exactly one
formatted requirement line per identity of the resolved set minus the
unsafe partition — the sorted package list carries each such identity with
the same multiplicity as the filtered resolved set and no identity twice,
and (in the absence of hash-warning interleaves) the block is exactly its
image under `_format_requirement`. -/
theorem c2_no_duplicate_pins (w : OutputWriter) (rel : String → String → Option String)
    (unsafePkgs : List String) (results : List Ireq)
    (markers : String → Option String) (hashes : List (Ireq × List String))
    (hnodup : (results.map keyFromIreq).Nodup) :
    ((sortedPackages unsafePkgs results).map keyFromIreq).Nodup
    ∧ (∀ k, ((sortedPackages unsafePkgs results).map keyFromIreq).count k
        = ((results.filter (fun r => !memName r.name unsafePkgs)).map keyFromIreq).count k)
    ∧ (hasHashes hashes = false →
        normalLines w rel unsafePkgs results markers hashes
          = (sortedPackages unsafePkgs results).map
              (fun i => w.formatRequirement rel i (markers (keyFromIreq i)) hashes)) := by
  refine ⟨sortedPackages_key_nodup unsafePkgs results hnodup, ?_, ?_⟩
  · intro k
    exact ((List.perm_insertionSort writerOrd _).map keyFromIreq).count_eq k
  · intro hh
    unfold normalLines
    simp only [hh, Bool.false_and, Bool.false_eq_true, if_false, List.nil_append]
    exact catMap_singleton _ _

/-- The strict form of the writer order: editable records strictly first,
identities strictly ascending within each editability group. -/
def strictWriterOrd (a b : Ireq) : Prop :=
  editRank a < editRank b
    ∨ (editRank a = editRank b ∧ strLe (keyFromIreq a) (keyFromIreq b) = true
        ∧ keyFromIreq a ≠ keyFromIreq b)

/-- C3 (amended): within the normal-packages block the entries are pairwise
in strict `_sort_key` order — all editable entries precede all non-editable
entries (`(not editable, key)` makes editable records, whose first component
is Python `False`, sort first), and within each group identities are
strictly ascending, given the resolved-set identity uniqueness. -/
theorem c3_sort_order_amended (unsafePkgs : List String) (results : List Ireq)
    (hnodup : (results.map keyFromIreq).Nodup) :
    (sortedPackages unsafePkgs results).Pairwise strictWriterOrd := by
  have hsorted : (sortedPackages unsafePkgs results).Pairwise writerOrd :=
    List.sorted_insertionSort writerOrd _
  have hnd2 := sortedPackages_key_nodup unsafePkgs results hnodup
  have hne : (sortedPackages unsafePkgs results).Pairwise
      (fun a b => keyFromIreq a ≠ keyFromIreq b) := List.pairwise_map.mp hnd2
  refine (hsorted.and hne).imp ?_
  intro a b hab
  rcases hab with ⟨hord | ⟨heq, hle⟩, hne2⟩
  · exact Or.inl hord
  · exact Or.inr ⟨heq, hle, hne2⟩

/-! ## Concrete writer fixtures -/

/-- A minimal writer configuration: no header, no option lines, no
annotation, no extras stripping, unsafe pinning disallowed. -/
def wBase : OutputWriter where
  dryRun := false
  emitHeader := false
  emitIndexUrl := false
  emitTrustedHost := false
  annotate := false
  stripExtras := false
  generateHashes := false
  defaultIndexUrl := "https://pypi.org/simple"
  indexUrls := []
  trustedHosts := []
  noBinary := []
  onlyBinary := []
  allowUnsafeFlag := false
  findLinks := []
  emitFindLinks := false
  emitOptions := false
  pythonVersion := "3.8"
  compileCommand := "pip-compile"

/-- An editable record with identity `a`. -/
def rEdit : Ireq where
  name := some "a"
  key := "a"
  reqText := "-e ./e"
  editable := true
  comes_from := ComesFrom.absent
  sourceComesFrom := none
  link := none
  wasRelative := false

/-- A non-editable record with identity `b`. -/
def rPlain : Ireq := { rEdit with
  name := some "b"
  key := "b"
  reqText := "b==1.0"
  editable := false }

/-- An unsafe record (`setuptools`). -/
def rUnsafe : Ireq := { rEdit with
  name := some "setuptools"
  key := "setuptools"
  reqText := "setuptools==65.0"
  editable := false }

def relNone : String → String → Option String := fun _ _ => none

def markersNone : String → Option String := fun _ => none

/-- C3 counterexample: on a resolved set with one editable record (identity
`a`) and one non-editable record (identity `b`), the normal-packages block
of `_iter_lines` lists the editable line first — `(not editable, key)`
sorts Python `False` (editable) before `True` — so it is not the case that
all non-editable requirement lines precede the editable ones, contradicting
the claim as stated. -/
theorem c3_sort_order_counterexample :
    (iterLines wBase relNone UNSAFE_PACKAGES [rEdit, rPlain] [] markersNone []).1
        = ["-e ./e", "b==1.0"]
    ∧ rEdit.editable = true ∧ rPlain.editable = false
    ∧ ¬ (sortedPackages UNSAFE_PACKAGES [rEdit, rPlain]).Pairwise
        (fun a b => a.editable = true → b.editable = true) := by
  refine ⟨by decide, rfl, rfl, ?_⟩
  decide

theorem c3_sort_order_amended_witness :
    (([rEdit, rPlain].map keyFromIreq).Nodup)
    ∧ (sortedPackages UNSAFE_PACKAGES [rEdit, rPlain]).Pairwise strictWriterOrd :=
  ⟨by decide, c3_sort_order_amended UNSAFE_PACKAGES [rEdit, rPlain] (by decide)⟩

theorem c2_no_duplicate_pins_witness :
    (([rEdit, rPlain, rUnsafe].map keyFromIreq).Nodup)
    ∧ ((sortedPackages UNSAFE_PACKAGES [rEdit, rPlain, rUnsafe]).map keyFromIreq).Nodup
    ∧ ((sortedPackages UNSAFE_PACKAGES [rEdit, rPlain, rUnsafe]).map keyFromIreq).count "b"
        = (([rEdit, rPlain, rUnsafe].filter
            (fun r => !memName r.name UNSAFE_PACKAGES)).map keyFromIreq).count "b"
    ∧ normalLines wBase relNone UNSAFE_PACKAGES [rEdit, rPlain, rUnsafe] markersNone []
        = (sortedPackages UNSAFE_PACKAGES [rEdit, rPlain, rUnsafe]).map
            (fun i => wBase.formatRequirement relNone i (markersNone (keyFromIreq i)) []) :=
  ⟨by decide,
    (c2_no_duplicate_pins wBase relNone UNSAFE_PACKAGES [rEdit, rPlain, rUnsafe]
      markersNone [] (by decide)).1,
    (c2_no_duplicate_pins wBase relNone UNSAFE_PACKAGES [rEdit, rPlain, rUnsafe]
      markersNone [] (by decide)).2.1 "b",
    (c2_no_duplicate_pins wBase relNone UNSAFE_PACKAGES [rEdit, rPlain, rUnsafe]
      markersNone [] (by decide)).2.2 (by decide)⟩

/-- C4: with an unsafe identity in the resolved set, `allow_unsafe` off and
at least one hash present, `_iter_lines` emits the blank separator, the
"unsafe packages unpinned" banner (not the plain banner), then one
commented `# <identity>` line per unsafe record — the given record's
commented line among them, with no uncommented pin for it in either block —
and the `warn_uninstallable` flag consulted after all lines are produced is
set, firing the aggregated warning. -/
theorem c4_unsafe_gating (w : OutputWriter) (rel : String → String → Option String)
    (unsafePkgs : List String) (results : List Ireq)
    (markers : String → Option String) (hashes : List (Ireq × List String)) (r : Ireq)
    (hmem : r ∈ results) (hname : memName r.name unsafePkgs = true)
    (hallow : w.allowUnsafeFlag = false) (hh : hasHashes hashes = true) :
    (∃ pre, (iterLines w rel unsafePkgs results [] markers hashes).1
        = pre ++ "" :: MESSAGE_UNSAFE_PACKAGES_UNPINNED
          :: (List.insertionSort writerOrd
              (results.filter (fun x => memName x.name unsafePkgs))).map
              (fun i => comment ("# " ++ keyFromIreq i)))
    ∧ r ∈ List.insertionSort writerOrd (results.filter (fun x => memName x.name unsafePkgs))
    ∧ r ∉ sortedPackages unsafePkgs results
    ∧ (iterLines w rel unsafePkgs results [] markers hashes).2 = true := by
  have hfilter : r ∈ results.filter (fun x => memName x.name unsafePkgs) :=
    List.mem_filter.mpr ⟨hmem, hname⟩
  have hne : results.filter (fun x => memName x.name unsafePkgs) ≠ [] :=
    List.ne_nil_of_mem hfilter
  have hemp : (results.filter (fun x => memName x.name unsafePkgs)).isEmpty = false := by
    simpa [List.isEmpty_iff] using hne
  have hus : effectiveUnsafeSubset unsafePkgs results [] =
      results.filter (fun x => memName x.name unsafePkgs) := rfl
  have hblock : unsafeBlockLines w rel unsafePkgs results [] markers hashes
      = "" :: MESSAGE_UNSAFE_PACKAGES_UNPINNED
        :: (List.insertionSort writerOrd
            (results.filter (fun x => memName x.name unsafePkgs))).map
            (fun i => comment ("# " ++ keyFromIreq i)) := by
    unfold unsafeBlockLines
    rw [hus, hemp, hh, hallow]
    simp only [Bool.false_eq_true, if_false, Bool.not_false, Bool.and_true, if_true]
    rw [catMap_singleton]
  have hwarn : warnUninstallable w unsafePkgs results [] hashes = true := by
    unfold warnUninstallable
    rw [hus, hemp, hh, hallow]
    simp
  have hnel : (iterLinesRaw w rel unsafePkgs results [] markers hashes).isEmpty = false := by
    unfold iterLinesRaw
    rw [hblock]
    simp [List.isEmpty_iff]
  have hlines : (iterLines w rel unsafePkgs results [] markers hashes).1
      = (w.writeHeader ++ w.writeFlags
          ++ normalLines w rel unsafePkgs results markers hashes)
        ++ unsafeBlockLines w rel unsafePkgs results [] markers hashes := by
    unfold iterLines
    rw [show (iterLinesRaw w rel unsafePkgs results [] markers hashes).isEmpty = false from hnel]
    simp [iterLinesRaw, List.append_assoc]
  refine ⟨⟨w.writeHeader ++ w.writeFlags
      ++ normalLines w rel unsafePkgs results markers hashes, ?_⟩, ?_, ?_, ?_⟩
  · rw [hlines, hblock]
  · exact (List.mem_insertionSort writerOrd).mpr hfilter
  · intro hin
    have h2 := (List.mem_insertionSort writerOrd).mp hin
    have h3 := (List.mem_filter.mp h2).2
    rw [hname] at h3
    cases h3
  · show warnUninstallable w unsafePkgs results [] hashes = true
    exact hwarn

/-- C10: when the hash index is active but records nothing for a normal
package of the resolved set, `_iter_lines` yields the unhashed-package
warning comment immediately before that package's formatted requirement
line inside the normal-packages block, and the flag behind the aggregated
uninstallable warning is set. -/
theorem c10_unhashed_warning (w : OutputWriter) (rel : String → String → Option String)
    (unsafePkgs : List String) (results unsafeParam : List Ireq)
    (markers : String → Option String) (hashes : List (Ireq × List String)) (r : Ireq)
    (hmem : r ∈ results) (hname : memName r.name unsafePkgs = false)
    (hh : hasHashes hashes = true) (hnoh : lookupHashes hashes r = []) :
    (∃ pre post, (iterLines w rel unsafePkgs results unsafeParam markers hashes).1
        = pre ++ MESSAGE_UNHASHED_PACKAGE
          :: w.formatRequirement rel r (markers (keyFromIreq r)) hashes :: post)
    ∧ (iterLines w rel unsafePkgs results unsafeParam markers hashes).2 = true := by
  have hfilter : r ∈ results.filter (fun x => !memName x.name unsafePkgs) :=
    List.mem_filter.mpr ⟨hmem, by rw [hname]; rfl⟩
  have hmem2 : r ∈ sortedPackages unsafePkgs results :=
    (List.mem_insertionSort writerOrd).mpr hfilter
  obtain ⟨p1, q1, hsplit⟩ := catMap_mem_split
    (fun i => (if hasHashes hashes && (lookupHashes hashes i).isEmpty
        then [MESSAGE_UNHASHED_PACKAGE] else [])
      ++ [w.formatRequirement rel i (markers (keyFromIreq i)) hashes])
    (sortedPackages unsafePkgs results) r hmem2
  have hnl : normalLines w rel unsafePkgs results markers hashes
      = p1 ++ (MESSAGE_UNHASHED_PACKAGE
          :: w.formatRequirement rel r (markers (keyFromIreq r)) hashes :: q1) := by
    unfold normalLines
    rw [hsplit, hh, hnoh]
    simp
  have hnel : (iterLinesRaw w rel unsafePkgs results unsafeParam markers hashes).isEmpty
      = false := by
    unfold iterLinesRaw
    rw [hnl]
    simp [List.isEmpty_iff]
  have hlines : (iterLines w rel unsafePkgs results unsafeParam markers hashes).1
      = w.writeHeader ++ w.writeFlags
        ++ normalLines w rel unsafePkgs results markers hashes
        ++ unsafeBlockLines w rel unsafePkgs results unsafeParam markers hashes := by
    unfold iterLines
    rw [hnel]
    exact congrArg  (fun x => x) (by unfold iterLinesRaw; rfl)
  refine ⟨⟨w.writeHeader ++ w.writeFlags ++ p1,
    q1 ++ unsafeBlockLines w rel unsafePkgs results unsafeParam markers hashes, ?_⟩, ?_⟩
  · rw [hlines, hnl]
    simp [List.append_assoc]
  · show warnUninstallable w unsafePkgs results unsafeParam hashes = true
    have hany : (sortedPackages unsafePkgs results).any
        (fun i => (lookupHashes hashes i).isEmpty) = true :=
      List.any_eq_true.mpr ⟨r, hmem2, by rw [hnoh]; rfl⟩
    unfold warnUninstallable
    rw [hh, hany]
    simp

theorem c4_unsafe_gating_witness :
    (rUnsafe ∈ [rUnsafe, rPlain]
      ∧ memName rUnsafe.name UNSAFE_PACKAGES = true
      ∧ wBase.allowUnsafeFlag = false
      ∧ hasHashes [(rPlain, ["sha256:x"])] = true)
    ∧ ((∃ pre, (iterLines wBase relNone UNSAFE_PACKAGES [rUnsafe, rPlain] []
          markersNone [(rPlain, ["sha256:x"])]).1
        = pre ++ "" :: MESSAGE_UNSAFE_PACKAGES_UNPINNED
          :: (List.insertionSort writerOrd ([rUnsafe, rPlain].filter
              (fun x => memName x.name UNSAFE_PACKAGES))).map
              (fun i => comment ("# " ++ keyFromIreq i)))
      ∧ rUnsafe ∈ List.insertionSort writerOrd ([rUnsafe, rPlain].filter
          (fun x => memName x.name UNSAFE_PACKAGES))
      ∧ rUnsafe ∉ sortedPackages UNSAFE_PACKAGES [rUnsafe, rPlain]
      ∧ (iterLines wBase relNone UNSAFE_PACKAGES [rUnsafe, rPlain] []
          markersNone [(rPlain, ["sha256:x"])]).2 = true) :=
  ⟨⟨by decide, by decide, rfl, by decide⟩,
    c4_unsafe_gating wBase relNone UNSAFE_PACKAGES [rUnsafe, rPlain] markersNone
      [(rPlain, ["sha256:x"])] rUnsafe (by decide) (by decide) rfl (by decide)⟩

theorem c10_unhashed_warning_witness :
    (rPlain ∈ [rPlain, rEdit]
      ∧ memName rPlain.name UNSAFE_PACKAGES = false
      ∧ hasHashes [(rEdit, ["sha256:y"])] = true
      ∧ lookupHashes [(rEdit, ["sha256:y"])] rPlain = [])
    ∧ ((∃ pre post, (iterLines wBase relNone UNSAFE_PACKAGES [rPlain, rEdit] []
          markersNone [(rEdit, ["sha256:y"])]).1
        = pre ++ MESSAGE_UNHASHED_PACKAGE
          :: wBase.formatRequirement relNone rPlain (markersNone (keyFromIreq rPlain))
              [(rEdit, ["sha256:y"])] :: post)
      ∧ (iterLines wBase relNone UNSAFE_PACKAGES [rPlain, rEdit] []
          markersNone [(rEdit, ["sha256:y"])]).2 = true) :=
  ⟨⟨by decide, by decide, by decide, by decide⟩,
    c10_unhashed_warning wBase relNone UNSAFE_PACKAGES [rPlain, rEdit] [] markersNone
      [(rEdit, ["sha256:y"])] rPlain (by decide) (by decide) (by decide) (by decide)⟩

/-! ## Lemmas on the `\[.+?\]` substitution -/

theorem scanRB_append_some (x b r : List Char) (h : scanRB x = some r) :
    scanRB (x ++ b) = some (r ++ b) := by
  induction x with
  | nil => simp [scanRB] at h
  | cons c rest ih =>
    by_cases hc : c = ']'
    · simp only [scanRB, if_pos hc, Option.some_inj] at h
      subst h
      simp [scanRB, hc]
    · by_cases hn : c = '\n'
      · simp [scanRB, hc, hn] at h
      · simp only [scanRB, if_neg hc, if_neg hn] at h
        simpa [scanRB, hc, hn] using ih h

theorem scanRB_none_no_rb (b : List Char) (hb : ∀ c ∈ b, c ≠ ']') : scanRB b = none := by
  induction b with
  | nil => rfl
  | cons c rest ih =>
    have hc : c ≠ ']' := hb c (List.mem_cons_self c rest)
    by_cases hn : c = '\n'
    · simp [scanRB, hc, hn]
    · simp only [scanRB, if_neg hc, if_neg hn]
      exact ih (fun d hd => hb d (List.mem_cons_of_mem c hd))

theorem scanRB_append_none (x b : List Char) (h : scanRB x = none)
    (hb : ∀ c ∈ b, c ≠ ']') : scanRB (x ++ b) = none := by
  induction x with
  | nil => simpa using scanRB_none_no_rb b hb
  | cons c rest ih =>
    by_cases hc : c = ']'
    · simp [scanRB, hc] at h
    · by_cases hn : c = '\n'
      · simp [scanRB, hc, hn]
      · simp only [scanRB, if_neg hc, if_neg hn] at h
        simpa [scanRB, hc, hn] using ih h

theorem afterBracket_append_some (x b r : List Char) (h : afterBracket x = some r) :
    afterBracket (x ++ b) = some (r ++ b) := by
  cases x with
  | nil => simp [afterBracket] at h
  | cons c rest =>
    by_cases hn : c = '\n'
    · simp [afterBracket, hn] at h
    · simp only [afterBracket, if_neg hn] at h
      simpa [afterBracket, hn] using scanRB_append_some rest b r h

theorem afterBracket_none_no_rb (b : List Char) (hb : ∀ c ∈ b, c ≠ ']') :
    afterBracket b = none := by
  cases b with
  | nil => rfl
  | cons c rest =>
    by_cases hn : c = '\n'
    · simp [afterBracket, hn]
    · simp only [afterBracket, if_neg hn]
      exact scanRB_none_no_rb rest (fun d hd => hb d (List.mem_cons_of_mem c hd))

theorem afterBracket_append_none (x b : List Char) (hx : afterBracket x = none)
    (hb : ∀ c ∈ b, c ≠ ']') : afterBracket (x ++ b) = none := by
  cases x with
  | nil => simpa using afterBracket_none_no_rb b hb
  | cons c rest =>
    by_cases hn : c = '\n'
    · simp [afterBracket, hn]
    · simp only [afterBracket, if_neg hn] at hx
      simpa [afterBracket, hn] using scanRB_append_none rest b hx hb

theorem scanRB_length (x r : List Char) (h : scanRB x = some r) : r.length < x.length := by
  induction x with
  | nil => simp [scanRB] at h
  | cons c rest ih =>
    by_cases hc : c = ']'
    · simp only [scanRB, if_pos hc, Option.some_inj] at h
      subst h
      simp
    · by_cases hn : c = '\n'
      · simp [scanRB, hc, hn] at h
      · simp only [scanRB, if_neg hc, if_neg hn] at h
        exact Nat.lt_trans (ih h) (by simp)

theorem afterBracket_length (x r : List Char) (h : afterBracket x = some r) :
    r.length < x.length := by
  cases x with
  | nil => simp [afterBracket] at h
  | cons c rest =>
    by_cases hn : c = '\n'
    · simp [afterBracket, hn] at h
    · simp only [afterBracket, if_neg hn] at h
      exact Nat.lt_trans (scanRB_length rest r h) (by simp)

theorem seFuel_nil (n : Nat) : seFuel n [] = [] := by cases n <;> rfl

theorem seFuel_succ (n : Nat) (c : Char) (rest : List Char) :
    seFuel (n + 1) (c :: rest)
      = if c = '[' then
          (match afterBracket rest with
            | some r => seFuel n r
            | none => c :: seFuel n rest)
        else c :: seFuel n rest := rfl

theorem seFuel_succ_not_lb (n : Nat) (c : Char) (rest : List Char) (hc : c ≠ '[') :
    seFuel (n + 1) (c :: rest) = c :: seFuel n rest := by
  rw [seFuel_succ, if_neg hc]

theorem seFuel_succ_lb_some (n : Nat) (rest r : List Char) (h : afterBracket rest = some r) :
    seFuel (n + 1) ('[' :: rest) = seFuel n r := by
  rw [seFuel_succ, if_pos rfl, h]

theorem seFuel_succ_lb_none (n : Nat) (rest : List Char) (h : afterBracket rest = none) :
    seFuel (n + 1) ('[' :: rest) = '[' :: seFuel n rest := by
  rw [seFuel_succ, if_pos rfl, h]

theorem seFuel_no_lb (b : List Char) (hb : ∀ c ∈ b, c ≠ '[') : ∀ n, seFuel n b = b := by
  induction b with
  | nil => intro n; exact seFuel_nil n
  | cons c rest ih =>
    intro n
    cases n with
    | zero => rfl
    | succ n =>
      rw [seFuel_succ_not_lb n c rest (hb c (List.mem_cons_self c rest))]
      exact congrArg (c :: ·) (ih (fun d hd => hb d (List.mem_cons_of_mem c hd)) n)

theorem seFuel_congr : ∀ (n m : Nat) (l : List Char), l.length ≤ n → l.length ≤ m →
    seFuel n l = seFuel m l := by
  intro n
  induction n with
  | zero =>
    intro m l hn _
    have : l = [] := List.eq_nil_of_length_eq_zero (Nat.le_zero.mp hn)
    subst this
    rw [seFuel_nil, seFuel_nil]
  | succ n ih =>
    intro m l hn hm
    cases l with
    | nil => rw [seFuel_nil, seFuel_nil]
    | cons c rest =>
      cases m with
      | zero => simp at hm
      | succ m =>
        simp only [List.length_cons, Nat.succ_le_succ_iff] at hn hm
        by_cases hc : c = '['
        · subst hc
          cases hab : afterBracket rest with
          | some r =>
            rw [seFuel_succ_lb_some n rest r hab, seFuel_succ_lb_some m rest r hab]
            have hr := afterBracket_length rest r hab
            exact ih m r (le_trans (Nat.le_of_lt hr) hn) (le_trans (Nat.le_of_lt hr) hm)
          | none =>
            rw [seFuel_succ_lb_none n rest hab, seFuel_succ_lb_none m rest hab]
            exact congrArg _ (ih m rest hn hm)
        · rw [seFuel_succ_not_lb n c rest hc, seFuel_succ_not_lb m c rest hc]
          exact congrArg _ (ih m rest hn hm)

theorem seFuel_append : ∀ (n : Nat) (a b : List Char), a.length + b.length ≤ n →
    (∀ c ∈ b, c ≠ '[' ∧ c ≠ ']') → seFuel n (a ++ b) = seFuel n a ++ b := by
  intro n
  induction n with
  | zero =>
    intro a b hlen _
    have ha : a = [] := List.eq_nil_of_length_eq_zero (by omega)
    have hb : b = [] := List.eq_nil_of_length_eq_zero (by omega)
    subst ha; subst hb
    simp [seFuel_nil]
  | succ n ih =>
    intro a b hlen hb
    cases a with
    | nil =>
      simp only [List.nil_append]
      rw [seFuel_no_lb b (fun c hc => (hb c hc).1), seFuel_nil]
      rfl
    | cons c rest =>
      simp only [List.length_cons] at hlen
      by_cases hc : c = '['
      · subst hc
        cases hab : afterBracket rest with
        | some r =>
          have hab2 := afterBracket_append_some rest b r hab
          rw [List.cons_append, seFuel_succ_lb_some n _ _ hab2,
            seFuel_succ_lb_some n _ _ hab]
          have hr := afterBracket_length rest r hab
          exact ih r b (by omega) hb
        | none =>
          have hab2 := afterBracket_append_none rest b hab (fun c hc => (hb c hc).2)
          rw [List.cons_append, seFuel_succ_lb_none n _ hab2, seFuel_succ_lb_none n _ hab]
          rw [ih rest b (by omega) hb]
          rfl
      · rw [List.cons_append, seFuel_succ_not_lb n c _ hc, seFuel_succ_not_lb n c rest hc]
        rw [ih rest b (by omega) hb]
        rfl

/-- Appending bracket-free text commutes with the global bracket-removal
substitution. -/
theorem stripExtrasChars_append (a b : List Char) (hb : ∀ c ∈ b, c ≠ '[' ∧ c ≠ ']') :
    stripExtrasChars (a ++ b) = stripExtrasChars a ++ b := by
  unfold stripExtrasChars
  rw [List.length_append, seFuel_append (a.length + b.length) a b le_rfl hb,
    seFuel_congr (a.length + b.length) a.length a (Nat.le_add_right _ _) le_rfl]

/-- String form of `stripExtrasChars_append`. -/
theorem stripExtrasStr_append (a b : String) (hb : ∀ c ∈ b.data, c ≠ '[' ∧ c ≠ ']') :
    stripExtrasStr (a ++ b) = stripExtrasStr a ++ b := by
  unfold stripExtrasStr
  rw [String.data_append, stripExtrasChars_append a.data b.data hb]
  rfl

/-- A non-editable record whose base requirement text carries an extras
suffix. -/
def rExtras : Ireq := { rEdit with
  name := some "pkg"
  key := "pkg"
  reqText := "pkg[extra]==1.0"
  editable := false }

/-- C6 counterexample: with extras-stripping on, `_format_requirement`
applies `re.sub(r"\[.+?\]", "", line)` to the whole composed line, so a
marker containing a bracketed segment is mutilated as well — the claim that
every part other than the base requirement text is left unchanged fails. -/
theorem c6_strip_extras_counterexample :
    OutputWriter.formatRequirement { wBase with stripExtras := true } relNone rExtras
        (some "os_name == \"a[b]\"") []
      = "pkg==1.0 ; os_name == \"a\""
    ∧ ¬ (OutputWriter.formatRequirement { wBase with stripExtras := true } relNone rExtras
        (some "os_name == \"a[b]\"") []
      = "pkg==1.0 ; os_name == \"a[b]\"") := by
  constructor
  · decide
  · decide

/-- C6 (amended): with extras-stripping enabled, `_format_requirement`
applies the bracket-removal substitution to the whole composed line after
hash/marker composition, removing every non-greedy `[...]` segment wherever
it occurs; when the marker and hash portions contain no bracket characters,
the effect is confined to the base requirement text, which is stripped with
the rest of the line unchanged. -/
theorem c6_strip_extras_amended (w : OutputWriter) (rel : String → String → Option String)
    (i : Ireq) (marker : Option String) (hashes : List (Ireq × List String))
    (hstrip : w.stripExtras = true) (hannot : w.annotate = false)
    (hb : ∀ c ∈ (markerText marker ++ hashesText (lookupHashes hashes i)).data,
        c ≠ '[' ∧ c ≠ ']') :
    w.formatRequirement rel i marker hashes
      = stripExtrasStr i.reqText
        ++ (markerText marker ++ hashesText (lookupHashes hashes i)) := by
  unfold OutputWriter.formatRequirement formatBase formatRequirementLine
  rw [hannot, hstrip]
  simp only [Bool.not_false, if_true]
  rw [String.append_assoc, stripExtrasStr_append _ _ hb]

theorem c6_strip_extras_amended_witness :
    (OutputWriter.stripExtras { wBase with stripExtras := true } = true
      ∧ OutputWriter.annotate { wBase with stripExtras := true } = false
      ∧ (∀ c ∈ (markerText (some "os_name == \"posix\"")
          ++ hashesText (lookupHashes [(rExtras, ["sha256:z"])] rExtras)).data,
          c ≠ '[' ∧ c ≠ ']'))
    ∧ OutputWriter.formatRequirement { wBase with stripExtras := true } relNone rExtras
        (some "os_name == \"posix\"") [(rExtras, ["sha256:z"])]
      = stripExtrasStr rExtras.reqText
        ++ (markerText (some "os_name == \"posix\"")
            ++ hashesText (lookupHashes [(rExtras, ["sha256:z"])] rExtras)) :=
  ⟨⟨rfl, rfl, by decide⟩,
    c6_strip_extras_amended { wBase with stripExtras := true } relNone rExtras
      (some "os_name == \"posix\"") [(rExtras, ["sha256:z"])] rfl rfl (by decide)⟩

/-- A concrete `os.path.relpath` model for the C7 counterexample: the
relative path of `/base/req.txt` with respect to `/base` is determinable. -/
def rel7 : String → String → Option String := fun p d =>
  if p = "/base/req.txt" ∧ d = "/base" then some "req.txt" else none

/-- A record whose origin is the file-and-line token `-r /base/req.txt (line 1)`. -/
def rReq : Ireq := { rEdit with
  name := some "req"
  key := "req"
  reqText := "req==1.0"
  editable := false
  comes_from := ComesFrom.str "-r /base/req.txt (line 1)" }

/-- C7 counterexample: `_format_requirement` invokes `_comes_from_as_string`
without a base directory, so even when a relative path to the requirements
file's directory is determinable (here `rel7` maps the recorded path to
`req.txt` under `/base`), the rendered annotation keeps the absolute path —
the claim that the annotation is relativized whenever determinable fails. -/
theorem c7_relpath_counterexample :
    rel7 "/base/req.txt" "/base" = some "req.txt"
    ∧ OutputWriter.formatRequirement { wBase with annotate := true } rel7 rReq none []
      = "req==1.0\n    # via -r /base/req.txt"
    ∧ ¬ (OutputWriter.formatRequirement { wBase with annotate := true } rel7 rReq none []
      = "req==1.0\n    # via -r req.txt") := by
  refine ⟨by decide, by decide, by decide⟩

/-- C7 (amended): `_comes_from_as_string`, given a base directory, renders a
file-and-line origin as `<-r|-c> <relpath>` when `os.path.relpath`
succeeds and falls back to the recorded path when it raises, never failing;
without a base directory it always renders the recorded path — and
`_format_requirement` invokes it without one, so its annotation always
contains the path exactly as recorded. -/
theorem c7_comes_from_render_amended (rel : String → String → Option String)
    (s opts path d : String) (w : OutputWriter) (i : Ireq) (marker : Option String)
    (hashes : List (Ireq × List String))
    (hm : matchComesFromLine s = some (opts, path))
    (hannot : w.annotate = true) (hstrip : w.stripExtras = false)
    (hcf : i.comes_from = ComesFrom.str s) (hsrc : i.sourceComesFrom = none)
    (hs : s ≠ "") :
    (∀ rp, rel path d = some rp →
        comesFromAsString rel (ComesFrom.str s) (some d) = opts ++ " " ++ rp)
    ∧ (rel path d = none →
        comesFromAsString rel (ComesFrom.str s) (some d) = opts ++ " " ++ path)
    ∧ comesFromAsString rel (ComesFrom.str s) none = opts ++ " " ++ path
    ∧ w.formatRequirement rel i marker hashes
      = formatRequirementLine i marker (lookupHashes hashes i)
        ++ "\n" ++ comment ("    # via " ++ (opts ++ " " ++ path)) := by
  have h3 : comesFromAsString rel (ComesFrom.str s) none = opts ++ " " ++ path := by
    simp [comesFromAsString, hm]
  refine ⟨?_, ?_, h3, ?_⟩
  · intro rp hrp
    simp [comesFromAsString, hm, hrp]
  · intro hrp
    simp [comesFromAsString, hm, hrp]
  · have htru : comesFromTruthy (ComesFrom.str s) = true := by
      simp [comesFromTruthy, hs]
    have hrb : requiredBy rel i = [opts ++ " " ++ path] := by
      unfold requiredBy
      rw [hsrc, hcf]
      simp only [htru, if_true]
      rw [h3]
    unfold OutputWriter.formatRequirement formatBase
    rw [hannot, hstrip, hrb]
    simp [dedupStr, dedupAux, sortStrings, List.insertionSort, List.orderedInsert,
      viaAnnotation, comment]

theorem c7_comes_from_render_amended_witness :
    (matchComesFromLine "-r /base/req.txt (line 1)" = some ("-r", "/base/req.txt")
      ∧ OutputWriter.annotate { wBase with annotate := true } = true
      ∧ OutputWriter.stripExtras { wBase with annotate := true } = false
      ∧ rReq.comes_from = ComesFrom.str "-r /base/req.txt (line 1)"
      ∧ rReq.sourceComesFrom = none
      ∧ "-r /base/req.txt (line 1)" ≠ ""
      ∧ rel7 "/base/req.txt" "/base" = some "req.txt"
      ∧ rel7 "/base/req.txt" "/other" = none)
    ∧ comesFromAsString rel7 (ComesFrom.str "-r /base/req.txt (line 1)") (some "/base")
        = "-r" ++ " " ++ "req.txt"
    ∧ comesFromAsString rel7 (ComesFrom.str "-r /base/req.txt (line 1)") (some "/other")
        = "-r" ++ " " ++ "/base/req.txt"
    ∧ comesFromAsString rel7 (ComesFrom.str "-r /base/req.txt (line 1)") none
        = "-r" ++ " " ++ "/base/req.txt"
    ∧ OutputWriter.formatRequirement { wBase with annotate := true } rel7 rReq none []
        = formatRequirementLine rReq none (lookupHashes [] rReq)
          ++ "\n" ++ comment ("    # via " ++ ("-r" ++ " " ++ "/base/req.txt")) :=
  ⟨⟨by decide, rfl, rfl, by decide, by decide, by decide, by decide, by decide⟩,
    (c7_comes_from_render_amended rel7 "-r /base/req.txt (line 1)" "-r" "/base/req.txt"
      "/base" { wBase with annotate := true } rReq none [] (by decide) rfl rfl
      (by decide) (by decide) (by decide)).1 "req.txt" (by decide),
    (c7_comes_from_render_amended rel7 "-r /base/req.txt (line 1)" "-r" "/base/req.txt"
      "/other" { wBase with annotate := true } rReq none [] (by decide) rfl rfl
      (by decide) (by decide) (by decide)).2.1 (by decide),
    (c7_comes_from_render_amended rel7 "-r /base/req.txt (line 1)" "-r" "/base/req.txt"
      "/base" { wBase with annotate := true } rReq none [] (by decide) rfl rfl
      (by decide) (by decide) (by decide)).2.2.1,
    (c7_comes_from_render_amended rel7 "-r /base/req.txt (line 1)" "-r" "/base/req.txt"
      "/base" { wBase with annotate := true } rReq none [] (by decide) rfl rfl
      (by decide) (by decide) (by decide)).2.2.2⟩
